import Mathlib

/- Verification development for sfs.mono.source: closed-form monochromatic
   sound-field evaluators (point, plane, modal-room, image-source, line and
   edge-diffraction sources), embedded pointwise over the real and complex
   numbers. Grid broadcasting is external to the module, so every evaluator
   is modelled at a single observation point. -/

noncomputable section

/-- Three-component real vector: positions, orientations and room dimensions. -/
structure Vec3 where
  x : ℝ
  y : ℝ
  z : ℝ

/-- Componentwise subtraction of 3-vectors (the grid-minus-source offset). -/
def Vec3.sub (a b : Vec3) : Vec3 := ⟨a.x - b.x, a.y - b.y, a.z - b.z⟩

/-- Scalar multiple of a 3-vector. -/
def Vec3.smul (t : ℝ) (v : Vec3) : Vec3 := ⟨t * v.x, t * v.y, t * v.z⟩

/-- Euclidean norm of a 3-vector, as computed by np.linalg.norm on the
    stacked offset components. -/
def norm3 (v : Vec3) : ℝ := Real.sqrt (v.x ^ 2 + v.y ^ 2 + v.z ^ 2)

/-- Dot product of 3-vectors (np.inner along the component axis). -/
def dot3 (a b : Vec3) : ℝ := a.x * b.x + a.y * b.y + a.z * b.z

/-- Ordered three-component bundle of complex per-axis field samples
    (the XyzComponents container, one entry per spatial axis). -/
structure XyzC where
  x : ℂ
  y : ℂ
  z : ℂ

/-- Scalar multiple of a per-axis bundle by a real factor. -/
def XyzC.smul (t : ℝ) (v : XyzC) : XyzC :=
  ⟨(t : ℂ) * v.x, (t : ℂ) * v.y, (t : ℂ) * v.z⟩

/-- Componentwise sum of per-axis bundles. -/
def XyzC.add (a b : XyzC) : XyzC := ⟨a.x + b.x, a.y + b.y, a.z + b.z⟩

/-- Modelled from the spec: the process-wide physical constants defs.c
    (speed of sound) and defs.rho0 (medium density) consumed by the module;
    the defs module itself is not under src/. They are positive physical
    quantities, passed here as an explicit immutable context value. -/
structure Defs where
  c : ℝ
  rho0 : ℝ
  c_pos : 0 < c
  rho0_pos : 0 < rho0

/-- Modelled from the spec: util.wavenumber (not under src/), the boundary
    collaborator computing k = omega / c with c defaulting to the
    process-wide speed of sound. -/
def wavenumber (omega : ℝ) (c : Option ℝ) (d : Defs) : ℝ :=
  omega / c.getD d.c

/-- Modelled from the spec: util.normalize_vector (not under src/); the
    orientation vector of a plane wave is normalized to unit length
    before use, componentwise division by the Euclidean norm. -/
def normalize_vector (v : Vec3) : Vec3 :=
  ⟨v.x / norm3 v, v.y / norm3 v, v.z / norm3 v⟩

/-- Sound pressure of a point source (source.py, point): one over 4 pi
    times exp(-j k r) / r, with r the distance from the source position;
    the orientation n0 is accepted but unused. -/
def point (omega : ℝ) (x0 : Vec3) (n0 : Option Vec3) (pt : Vec3)
    (c : Option ℝ) (d : Defs) : ℂ :=
  let k := wavenumber omega c d
  let r := norm3 (Vec3.sub pt x0)
  1 / (4 * (Real.pi : ℂ)) * Complex.exp (-Complex.I * (k : ℂ) * (r : ℂ)) / (r : ℂ)

/-- Denominator of the momentum-relation factor in point_velocity
    (source.py line 133): rho0 times c times j times k times r. -/
def pointVelocityFactorDenom (d : Defs) (cv k r : ℝ) : ℂ :=
  (d.rho0 : ℂ) * (cv : ℂ) * Complex.I * (k : ℂ) * (r : ℂ)

/-- Momentum-relation factor (1 + j k r) / (j rho0 c k r) applied to the
    point-source pressure inside point_velocity. -/
def pointVelocityFactor (d : Defs) (cv k r : ℝ) : ℂ :=
  (1 + Complex.I * (k : ℂ) * (r : ℂ)) / pointVelocityFactorDenom d cv k r

/-- Particle velocity of a point source (source.py, point_velocity): the
    pressure times the momentum factor, projected on each axis by the
    offset over r. -/
def point_velocity (omega : ℝ) (x0 : Vec3) (n0 : Option Vec3) (pt : Vec3)
    (c : Option ℝ) (d : Defs) : XyzC :=
  let cv := c.getD d.c
  let k := wavenumber omega (some cv) d
  let offset := Vec3.sub pt x0
  let r := norm3 offset
  let v := point omega x0 n0 pt (some cv) d * pointVelocityFactor d cv k r
  ⟨v * (offset.x : ℂ) / (r : ℂ), v * (offset.y : ℂ) / (r : ℂ),
    v * (offset.z : ℂ) / (r : ℂ)⟩

/-- Time-averaged intensity of a point source (source.py,
    point_averaged_intensity): the body reads only the process-wide
    constants defs.rho0 and defs.c; the omega and c parameters are
    accepted but never read. -/
def point_averaged_intensity (omega : ℝ) (x0 : Vec3) (n0 : Option Vec3)
    (pt : Vec3) (c : Option ℝ) (d : Defs) : Vec3 :=
  let offset := Vec3.sub pt x0
  let r := norm3 offset
  let i := 1 / (2 * d.rho0 * d.c)
  ⟨i * offset.x / r ^ 2, i * offset.y / r ^ 2, i * offset.z / r ^ 2⟩

/-- Sound pressure of a plane wave (source.py, plane): exp of minus j k
    times the inner product of the offset with the orientation, the
    orientation having been normalized to unit length. -/
def plane (omega : ℝ) (x0 : Vec3) (n0 : Vec3) (pt : Vec3)
    (c : Option ℝ) (d : Defs) : ℂ :=
  let k := wavenumber omega c d
  let nhat := normalize_vector n0
  Complex.exp (-Complex.I * (k : ℂ) * ((dot3 (Vec3.sub pt x0) nhat : ℝ) : ℂ))

/-- Particle velocity of a plane wave (source.py, plane_velocity): the
    pressure divided by rho0 times c, multiplied per axis by the
    components of n0 exactly as passed in (line 670 iterates over the
    raw n0). -/
def plane_velocity (omega : ℝ) (x0 : Vec3) (n0 : Vec3) (pt : Vec3)
    (c : Option ℝ) (d : Defs) : XyzC :=
  let cv := c.getD d.c
  let v := plane omega x0 n0 pt (some cv) d / ((d.rho0 : ℂ) * (cv : ℂ))
  ⟨v * (n0.x : ℂ), v * (n0.y : ℂ), v * (n0.z : ℂ)⟩

/-- Modal truncation estimate ceil(L_axis / pi * k) shared by the two
    modal evaluators when no maximum order is supplied (source.py lines
    265 and 327-329). -/
def modalMaxEstimate (Laxis k : ℝ) : ℤ := ⌈Laxis / Real.pi * k⌉

/-- Per-axis entry of the order argument N of point_modal: absent, a
    scalar maximum order, or an explicit list of orders. -/
inductive AxisN where
  | auto : AxisN
  | max (n : ℕ) : AxisN
  | listed (l : List ℕ) : AxisN

/-- Order argument N accepted by point_modal: absent, a scalar maximum
    broadcast to all axes, or three per-axis entries. -/
inductive PmN where
  | auto : PmN
  | scalar (n : ℕ) : PmN
  | perAxis (a0 a1 a2 : AxisN) : PmN

/-- Orders iterated along one axis by point_modal (source.py lines
    262-271): a missing entry yields range of the estimate plus one, a
    scalar entry n yields range (n + 1), an explicit list is used as
    given. -/
def axisOrders (a : AxisN) (Laxis k : ℝ) : List ℕ :=
  match a with
  | .auto => List.range (modalMaxEstimate Laxis k + 1).toNat
  | .max n => List.range (n + 1)
  | .listed l => l

/-- Triple of per-axis order lists iterated by point_modal (source.py
    lines 255-271); a scalar N is first broadcast to all three axes. -/
def pmOrders (N : PmN) (L : Vec3) (k : ℝ) : List ℕ × List ℕ × List ℕ :=
  match N with
  | .auto => (axisOrders .auto L.x k, axisOrders .auto L.y k, axisOrders .auto L.z k)
  | .scalar n =>
      (axisOrders (.max n) L.x k, axisOrders (.max n) L.y k, axisOrders (.max n) L.z k)
  | .perAxis a0 a1 a2 => (axisOrders a0 L.x k, axisOrders a1 L.y k, axisOrders a2 L.z k)

/-- All mode combinations (m, n, l) produced by itertools.product over
    three per-axis order lists, in iteration order. -/
def listProd3 (a b c : List ℕ) : List (ℕ × ℕ × ℕ) :=
  a.flatMap fun m => b.flatMap fun n => c.map fun l => (m, n, l)

/-- Mode combinations summed by point_modal. -/
def pmModes (N : PmN) (L : Vec3) (k : ℝ) : List (ℕ × ℕ × ℕ) :=
  listProd3 (pmOrders N L k).1 (pmOrders N L k).2.1 (pmOrders N L k).2.2

/-- Series term of point_modal for mode (m, n, l) (source.py lines
    273-283): 8 / (k^2 - km) times the three cosine mode-shape products,
    with per-axis wavenumber contribution (m pi / L_axis + j deltan)^2. -/
def pmTerm (x0 pt L : Vec3) (deltan k : ℝ) (mnl : ℕ × ℕ × ℕ) : ℂ :=
  let kx : ℝ := mnl.1 * Real.pi / L.x
  let ky : ℝ := mnl.2.1 * Real.pi / L.y
  let kz : ℝ := mnl.2.2 * Real.pi / L.z
  let km : ℂ := ((kx : ℂ) + Complex.I * (deltan : ℂ)) ^ 2
    + ((ky : ℂ) + Complex.I * (deltan : ℂ)) ^ 2
    + ((kz : ℂ) + Complex.I * (deltan : ℂ)) ^ 2
  8 / ((k : ℂ) ^ 2 - km)
    * ((Real.cos (kx * pt.x) * Real.cos (kx * x0.x) : ℝ) : ℂ)
    * ((Real.cos (ky * pt.y) * Real.cos (ky * x0.y) : ℝ) : ℂ)
    * ((Real.cos (kz * pt.z) * Real.cos (kz * x0.z) : ℝ) : ℂ)

/-- Pressure of a point source in a rectangular room via the modal model
    (source.py, point_modal): the sum of pmTerm over pmModes. -/
def point_modal (omega : ℝ) (x0 : Vec3) (n0 : Option Vec3) (pt : Vec3)
    (L : Vec3) (N : PmN) (deltan : ℝ) (c : Option ℝ) (d : Defs) : ℂ :=
  let k := wavenumber omega c d
  ((pmModes N L k).map (pmTerm x0 pt L deltan k)).sum

/-- Order argument N accepted by point_modal_velocity: absent, a scalar
    maximum, or one explicit order combination. -/
inductive PmvN where
  | auto : PmvN
  | scalar (n : ℕ) : PmvN
  | combination (n0 n1 n2 : ℕ) : PmvN

/-- Triple of per-axis order lists iterated by point_modal_velocity
    (source.py lines 325-342): a missing N yields range of the estimate
    per axis, a scalar N yields range N per axis, and a 3-vector selects
    the single combination. -/
def pmvOrders (N : PmvN) (L : Vec3) (k : ℝ) : List ℕ × List ℕ × List ℕ :=
  match N with
  | .auto => (List.range (modalMaxEstimate L.x k).toNat,
      List.range (modalMaxEstimate L.y k).toNat,
      List.range (modalMaxEstimate L.z k).toNat)
  | .scalar n => (List.range n, List.range n, List.range n)
  | .combination n0 n1 n2 => ([n0], [n1], [n2])

/-- Mode combinations summed by point_modal_velocity. -/
def pmvModes (N : PmvN) (L : Vec3) (k : ℝ) : List (ℕ × ℕ × ℕ) :=
  listProd3 (pmvOrders N L k).1 (pmvOrders N L k).2.1 (pmvOrders N L k).2.2

/-- Per-axis velocity contribution of one mode combination in
    point_modal_velocity (source.py lines 344-358): minus 8 j over
    (k^2 - km) times the sine-cosine mode shape of each axis. -/
def pmvTerm (x0 pt L : Vec3) (deltan k : ℝ) (mnl : ℕ × ℕ × ℕ) : XyzC :=
  let kx : ℝ := mnl.1 * Real.pi / L.x
  let ky : ℝ := mnl.2.1 * Real.pi / L.y
  let kz : ℝ := mnl.2.2 * Real.pi / L.z
  let km : ℂ := ((kx : ℂ) + Complex.I * (deltan : ℂ)) ^ 2
    + ((ky : ℂ) + Complex.I * (deltan : ℂ)) ^ 2
    + ((kz : ℂ) + Complex.I * (deltan : ℂ)) ^ 2
  let coef : ℂ := -(8 * Complex.I) / ((k : ℂ) ^ 2 - km)
  ⟨coef * ((Real.sin (kx * pt.x) * Real.cos (kx * x0.x) : ℝ) : ℂ),
    coef * ((Real.sin (ky * pt.y) * Real.cos (ky * x0.y) : ℝ) : ℂ),
    coef * ((Real.sin (kz * pt.z) * Real.cos (kz * x0.z) : ℝ) : ℂ)⟩

/-- Particle velocity of a point source in a rectangular room via the
    modal model (source.py, point_modal_velocity): componentwise sum of
    pmvTerm over pmvModes, accumulated from zero. -/
def point_modal_velocity (omega : ℝ) (x0 : Vec3) (n0 : Option Vec3)
    (pt : Vec3) (L : Vec3) (N : PmvN) (deltan : ℝ) (c : Option ℝ)
    (d : Defs) : XyzC :=
  let k := wavenumber omega c d
  ((pmvModes N L k).map (pmvTerm x0 pt L deltan k)).foldl XyzC.add ⟨0, 0, 0⟩

/-- Pressure of a point source in a rectangular room via the mirror
    image-source model (source.py, point_image_sources), parameterized by
    the external room-geometry collaborator imgs producing image positions
    with their per-wall reflection orders. Reflection coefficients default
    to one; each image contributes its strength, the product over the six
    walls of coefficient to the power order, times the free-field point
    pressure, and images of zero strength are skipped. -/
def point_image_sources
    (imgs : Vec3 → Vec3 → ℕ → List (Vec3 × (Fin 6 → ℕ)))
    (omega : ℝ) (x0 : Vec3) (n0 : Option Vec3) (pt : Vec3) (L : Vec3)
    (max_order : ℕ) (coeffs : Option (Fin 6 → ℝ)) (c : Option ℝ)
    (d : Defs) : ℂ :=
  let cs := coeffs.getD fun _ => 1
  ((imgs x0 L max_order).map fun im =>
    let strength := (Finset.univ : Finset (Fin 6)).prod fun i => cs i ^ im.2 i
    if strength ≠ 0 then (strength : ℂ) * point omega im.1 n0 pt c d
    else 0).sum

/-- Modelled from the spec: the real Bessel evaluators of the first and
    second kind, J and Y, of real order and argument; these are the
    external numeric-library collaborators (scipy.special), not part of
    src/ and left abstract. -/
structure Special where
  J : ℝ → ℝ → ℝ
  Y : ℝ → ℝ → ℝ

/-- Modelled from the spec: the reference evaluator special.hankel2 for
    the Hankel function of the second kind, which satisfies the
    closed-form relation H2 of order nu equals J nu minus j Y nu stated
    by the spec. -/
def hankel2 (S : Special) (nu x : ℝ) : ℂ :=
  (S.J nu x : ℂ) - Complex.I * (S.Y nu x : ℂ)

/-- Fast order-zero Hankel evaluator (source.py, _hankel2_0): j0 of x
    minus j times y0 of x, from the two real order-zero Bessel
    functions. -/
def hankel2_0 (S : Special) (x : ℝ) : ℂ :=
  (S.J 0 x : ℂ) - Complex.I * (S.Y 0 x : ℂ)

/-- Planar distance used by the line source: norm of the first two
    components of pt minus x0 (both z components ignored). -/
def lineR (x0 pt : Vec3) : ℝ :=
  Real.sqrt ((pt.x - x0.x) ^ 2 + (pt.y - x0.y) ^ 2)

/-- Sound pressure of a line source parallel to the z axis (source.py,
    line): minus j over 4 times the fast order-zero Hankel evaluator at
    k times the planar distance. -/
def line (S : Special) (omega : ℝ) (x0 : Vec3) (n0 : Option Vec3)
    (pt : Vec3) (c : Option ℝ) (d : Defs) : ℂ :=
  -Complex.I / 4 * hankel2_0 S (wavenumber omega c d * lineR x0 pt)

/-- Two-argument arctangent as computed by np.arctan2 applied to (y, x):
    the argument of the complex number x + j y, in the interval from
    minus pi exclusive to pi inclusive. -/
def arctan2 (y x : ℝ) : ℝ := Complex.arg ((x : ℂ) + (y : ℂ) * Complex.I)

/-- Wrap of an angle from the arctangent range into the interval from 0
    to 2 pi, as done for phi_s and phi in line_dirichlet_edge (source.py
    lines 544-545 and 552). -/
def posAngle (a : ℝ) : ℝ := if a < 0 then a + 2 * Real.pi else a

/-- Azimuthal angle of an observation point, computed from its first two
    components (source.py lines 551-552). -/
def edgePhi (pt : Vec3) : ℝ := posAngle (arctan2 pt.y pt.x)

/-- Series weights epsilon of line_dirichlet_edge (source.py lines
    557-558): the entry for m equal 0 is 2, all higher entries are 1. -/
def edgeEpsilon (m : ℕ) : ℝ := if m = 0 then 2 else 1

/-- Coefficient 1 / epsilon_m applied to the angular factor of series
    term m in line_dirichlet_edge (source.py line 565). -/
def edgeSeriesWeight (m : ℕ) : ℝ := 1 / edgeEpsilon m

/-- Eigenfunction-series value of line_dirichlet_edge at a point inside
    the wedge span (source.py lines 554-571): for each m the weighted
    angular factor times a Bessel-Hankel product whose arguments swap
    across the source radius, the sum scaled by minus j pi over alpha. -/
def edgeSeries (S : Special) (omega : ℝ) (x0 pt : Vec3) (alpha : ℝ)
    (Nc : ℕ) (c : Option ℝ) (d : Defs) : ℂ :=
  let k := wavenumber omega c d
  let phi_s := posAngle (arctan2 x0.y x0.x)
  let r_s := norm3 x0
  let r := Real.sqrt (pt.x ^ 2 + pt.y ^ 2)
  let phi := edgePhi pt
  ((Finset.range Nc).sum fun m =>
    ((edgeSeriesWeight m * Real.sin (m * Real.pi / alpha * phi_s)
        * Real.sin (m * Real.pi / alpha * phi) : ℝ) : ℂ)
      * (if r ≤ r_s then
          (S.J (m * Real.pi / alpha) (k * r) : ℂ)
            * hankel2 S (m * Real.pi / alpha) (k * r_s)
        else
          (S.J (m * Real.pi / alpha) (k * r_s) : ℂ)
            * hankel2 S (m * Real.pi / alpha) (k * r)))
    * (-Complex.I * (Real.pi : ℂ) / (alpha : ℂ))

/-- Pressure of a line source diffracted at a wedge with Dirichlet
    boundary (source.py, line_dirichlet_edge), pointwise with the series
    length Nc supplied: points with azimuth within the wedge angle alpha
    receive the eigenfunction series, all other points receive the
    unobstructed free-field line-source value. -/
def line_dirichlet_edge (S : Special) (omega : ℝ) (x0 pt : Vec3)
    (alpha : ℝ) (Nc : ℕ) (c : Option ℝ) (d : Defs) : ℂ :=
  if edgePhi pt ≤ alpha then edgeSeries S omega x0 pt alpha Nc c d
  else line S omega x0 none pt c d

/-- Concrete instance of the physical constants used to state closed
    concrete evaluations: c of 343 and rho0 of 1.225. -/
def someDefs : Defs := ⟨343, 1.225, by norm_num, by norm_num⟩

/-- Concrete Bessel-evaluator instance used only to state closed concrete
    facts; the theorems hold for every evaluator. -/
def someSpecial : Special := ⟨fun _ _ => 0, fun _ _ => 0⟩

/- ------------------------------------------------------------------ -/
/- Shared helper lemmas.                                              -/
/- ------------------------------------------------------------------ -/

theorem norm3_unit_x : norm3 ⟨1, 0, 0⟩ = 1 := by
  simp [norm3]

theorem norm3_two_x : norm3 ⟨2, 0, 0⟩ = 2 := by
  have h : ((2 : ℝ) ^ 2 + 0 ^ 2 + 0 ^ 2) = 2 ^ 2 := by norm_num
  rw [norm3, h, Real.sqrt_sq (by norm_num : (0:ℝ) ≤ 2)]

theorem sub_unit_x : Vec3.sub ⟨1, 0, 0⟩ ⟨0, 0, 0⟩ = ⟨1, 0, 0⟩ := by
  simp [Vec3.sub]

theorem sub_c7_points : Vec3.sub ⟨2.5, 1, 0⟩ ⟨1.5, 1, 0⟩ = ⟨1, 0, 0⟩ := by
  simp only [Vec3.sub, Vec3.mk.injEq]
  norm_num

theorem listProd3_length (a b c : List ℕ) :
    (listProd3 a b c).length = a.length * b.length * c.length := by
  have hinner : ∀ m : ℕ,
      (b.flatMap fun n => c.map fun l => (m, n, l)).length
        = b.length * c.length := by
    intro m
    induction b with
    | nil => simp
    | cons y ys ihb => simp [ihb]; ring
  induction a with
  | nil => simp [listProd3]
  | cons m ms iha =>
      simp only [listProd3] at iha ⊢
      simp [hinner, iha]
      ring

theorem XyzC.zero_add (t : XyzC) : XyzC.add ⟨0, 0, 0⟩ t = t := by
  cases t
  simp [XyzC.add]

theorem norm3_smul (t : ℝ) (ht : 0 ≤ t) (v : Vec3) :
    norm3 (Vec3.smul t v) = t * norm3 v := by
  rw [norm3, Vec3.smul, norm3]
  have h : (t * v.x) ^ 2 + (t * v.y) ^ 2 + (t * v.z) ^ 2
      = t ^ 2 * (v.x ^ 2 + v.y ^ 2 + v.z ^ 2) := by ring
  rw [h, Real.sqrt_mul (sq_nonneg t), Real.sqrt_sq_eq_abs, abs_of_nonneg ht]

theorem normalize_vector_smul (t : ℝ) (ht : 0 < t) (v : Vec3) :
    normalize_vector (Vec3.smul t v) = normalize_vector v := by
  unfold normalize_vector
  rw [norm3_smul t ht.le]
  simp only [Vec3.smul, Vec3.mk.injEq]
  refine ⟨?_, ?_, ?_⟩ <;> exact mul_div_mul_left _ _ (ne_of_gt ht)

theorem plane_smul (t : ℝ) (ht : 0 < t) (omega : ℝ) (x0 n0 pt : Vec3)
    (c : Option ℝ) (d : Defs) :
    plane omega x0 (Vec3.smul t n0) pt c d = plane omega x0 n0 pt c d := by
  simp only [plane, normalize_vector_smul t ht]

theorem plane_zero_freq (x0 n0 pt : Vec3) (cv : ℝ) (d : Defs) :
    plane 0 x0 n0 pt (some cv) d = 1 := by
  simp [plane, wavenumber]

/- ------------------------------------------------------------------ -/
/- Claim theorems.                                                    -/
/- ------------------------------------------------------------------ -/

/-- C10: point_averaged_intensity reads neither its omega nor its c
    argument: every supplied speed of sound, or none, and every frequency
    produce the identical intensity, which is computed from the
    process-wide constants only. -/
theorem C10_intensity_ignores_omega_and_c (x0 : Vec3) (n0 : Option Vec3)
    (pt : Vec3) (d : Defs) (omega1 omega2 : ℝ) (c1 c2 : Option ℝ) :
    point_averaged_intensity omega1 x0 n0 pt c1 d
      = point_averaged_intensity omega2 x0 n0 pt c2 d := rfl

/-- C8: the fast evaluator returns J0 of x minus j times Y0 of x, which
    coincides with the reference Hankel evaluator of the second kind at
    order zero, and the line-source pressure equals minus j over 4 times
    the reference evaluator at k r. -/
theorem C8_hankel2_0_matches_reference :
    (∀ (S : Special) (x : ℝ),
      hankel2_0 S x = (S.J 0 x : ℂ) - Complex.I * (S.Y 0 x : ℂ)
        ∧ hankel2_0 S x = hankel2 S 0 x)
    ∧ ∀ (S : Special) (omega : ℝ) (x0 : Vec3) (n0 : Option Vec3)
        (pt : Vec3) (c : Option ℝ) (d : Defs),
        line S omega x0 n0 pt c d
          = -Complex.I / 4 * hankel2 S 0 (wavenumber omega c d * lineR x0 pt) :=
  ⟨fun _ _ => ⟨rfl, rfl⟩, fun _ _ _ _ _ _ _ => rfl⟩

/-- C5 counterexample: in line_dirichlet_edge the coefficient applied to
    the series term at m equal 0 is 1 over epsilon_0, that is one half,
    while every higher term gets coefficient 1: the zeroth term is not
    weighted by a factor of 2 relative to term 1. -/
theorem C5_cex : ¬ edgeSeriesWeight 0 = 2 * edgeSeriesWeight 1 := by
  simp only [edgeSeriesWeight, edgeEpsilon]
  norm_num

/-- C5 amended: the m equal 0 term of the eigenfunction series in
    line_dirichlet_edge is weighted by 1 over epsilon_0, that is one
    half: every higher term m of at least 1 carries twice the weight of
    the zeroth term, so the zeroth term is halved relative to all
    others, the reverse of a doubling (its angular factor sin of 0
    moreover makes the zeroth term vanish identically). -/
theorem C5_zeroth_term_halved (m : ℕ) (h : 1 ≤ m) :
    edgeSeriesWeight m = 2 * edgeSeriesWeight 0 := by
  have hm : m ≠ 0 := by omega
  simp only [edgeSeriesWeight, edgeEpsilon, hm, if_false, if_true]
  norm_num

/-- C5 witness: the amended relation evaluated at m equal 1. -/
theorem C5_zeroth_term_halved_witness :
    1 ≤ 1 ∧ edgeSeriesWeight 1 = 2 * edgeSeriesWeight 0 :=
  ⟨le_refl 1, C5_zeroth_term_halved 1 (le_refl 1)⟩

/-- C9: at every observation point whose azimuth strictly exceeds the
    wedge angle alpha, line_dirichlet_edge returns exactly the
    unobstructed free-field line-source pressure instead of the series
    value. -/
theorem C9_edge_outside_wedge_is_free_field (S : Special) (omega : ℝ)
    (x0 pt : Vec3) (alpha : ℝ) (Nc : ℕ) (c : Option ℝ) (d : Defs)
    (h : alpha < edgePhi pt) :
    line_dirichlet_edge S omega x0 pt alpha Nc c d
      = line S omega x0 none pt c d := by
  unfold line_dirichlet_edge
  rw [if_neg (not_le.mpr h)]

/-- C9 witness: the point (0, -1, 0) has azimuth 3 pi over 2, which
    exceeds the wedge angle pi, so the edge field there is the free-field
    line value. -/
theorem C9_edge_outside_wedge_witness :
    Real.pi < edgePhi ⟨0, -1, 0⟩ ∧
    line_dirichlet_edge someSpecial 1 ⟨1, 0, 0⟩ ⟨0, -1, 0⟩ Real.pi 5 none someDefs
      = line someSpecial 1 ⟨1, 0, 0⟩ none ⟨0, -1, 0⟩ none someDefs := by
  have harg : arctan2 (-1) 0 = -(Real.pi / 2) := by
    unfold arctan2
    have : ((0 : ℝ) : ℂ) + ((-1 : ℝ) : ℂ) * Complex.I = -Complex.I := by
      push_cast
      ring
    rw [this, Complex.arg_neg_I]
  have hphi : edgePhi ⟨0, -1, 0⟩ = 3 * Real.pi / 2 := by
    unfold edgePhi
    rw [harg, posAngle, if_pos (by linarith [Real.pi_pos])]
    ring
  have h : Real.pi < edgePhi ⟨0, -1, 0⟩ := by
    rw [hphi]
    nlinarith [Real.pi_pos]
  exact ⟨h, C9_edge_outside_wedge_is_free_field someSpecial 1 ⟨1, 0, 0⟩
    ⟨0, -1, 0⟩ Real.pi 5 none someDefs h⟩

/-- C1 counterexample: called with the explicit 3-vector N of single
    indices (1, 1, 1), point_modal does not evaluate the single mode
    combination (1, 1, 1): it sums over the per-axis ranges 0..1, eight
    mode combinations in total. -/
theorem C1_point_modal_not_single_mode_cex :
    pmModes (.perAxis (.max 1) (.max 1) (.max 1)) ⟨1, 1, 1⟩ 0 ≠ [(1, 1, 1)] := by
  simp only [pmModes, pmOrders, axisOrders, listProd3]
  decide

/-- C1 amended: an explicit 3-vector of single indices selects exactly
    one mode combination in point_modal_velocity, whose result is then
    the single series term of that combination; point_modal instead
    interprets the three entries as per-axis maximum orders and sums
    (a+1)(b+1)(c+1) mode combinations. -/
theorem C1_single_mode_only_in_velocity (L : Vec3) (k : ℝ) (a b c : ℕ) :
    pmvModes (.combination a b c) L k = [(a, b, c)]
    ∧ (pmModes (.perAxis (.max a) (.max b) (.max c)) L k).length
        = (a + 1) * (b + 1) * (c + 1)
    ∧ ∀ (omega : ℝ) (x0 : Vec3) (n0 : Option Vec3) (pt : Vec3)
        (deltan : ℝ) (copt : Option ℝ) (d : Defs),
        point_modal_velocity omega x0 n0 pt L (.combination a b c) deltan copt d
          = pmvTerm x0 pt L deltan (wavenumber omega copt d) (a, b, c) := by
  refine ⟨?_, ?_, ?_⟩
  · simp [pmvModes, pmvOrders, listProd3]
  · rw [pmModes, listProd3_length]
    simp [pmOrders, axisOrders]
  · intro omega x0 n0 pt deltan copt d
    unfold point_modal_velocity
    simp only [pmvModes, pmvOrders, listProd3]
    simp [XyzC.zero_add]

/-- C4 counterexample: with room dimension pi and wavenumber 1 the
    estimated maximum order is 1, yet by default point_modal sums the
    axis orders 0 and 1 while point_modal_velocity sums only order 0:
    the default truncations of the two functions differ. -/
theorem C4_default_truncation_cex :
    (pmOrders .auto ⟨Real.pi, Real.pi, Real.pi⟩ 1).1
      ≠ (pmvOrders .auto ⟨Real.pi, Real.pi, Real.pi⟩ 1).1 := by
  have hest : modalMaxEstimate Real.pi 1 = 1 := by
    unfold modalMaxEstimate
    rw [div_self Real.pi_ne_zero, one_mul]
    exact Int.ceil_one
  simp only [pmOrders, pmvOrders, axisOrders, hest]
  decide

/-- C4 amended: when no maximum order is supplied both functions use the
    same per-axis estimate ceil(L_axis divided by pi times k), but the
    summed ranges are not identical: point_modal sums the orders 0 up to
    and including the estimate, while point_modal_velocity stops one
    short of it, so per axis point_modal iterates exactly one extra
    order, the estimated maximum itself. -/
theorem C4_point_modal_iterates_one_extra_order (L : Vec3) (k : ℝ)
    (hx : 0 ≤ modalMaxEstimate L.x k) (hy : 0 ≤ modalMaxEstimate L.y k)
    (hz : 0 ≤ modalMaxEstimate L.z k) :
    (pmOrders .auto L k).1
        = (pmvOrders .auto L k).1 ++ [(modalMaxEstimate L.x k).toNat]
    ∧ (pmOrders .auto L k).2.1
        = (pmvOrders .auto L k).2.1 ++ [(modalMaxEstimate L.y k).toNat]
    ∧ (pmOrders .auto L k).2.2
        = (pmvOrders .auto L k).2.2 ++ [(modalMaxEstimate L.z k).toNat] := by
  have key : ∀ e : ℤ, 0 ≤ e →
      List.range (e + 1).toNat = List.range e.toNat ++ [e.toNat] := by
    intro e he
    rw [Int.toNat_add he (by norm_num)]
    simp [List.range_succ]
  exact ⟨by simp only [pmOrders, pmvOrders, axisOrders]; exact key _ hx,
    by simp only [pmOrders, pmvOrders, axisOrders]; exact key _ hy,
    by simp only [pmOrders, pmvOrders, axisOrders]; exact key _ hz⟩

/-- C4 witness: the amended relation at room dimensions pi and
    wavenumber 1, where the estimate is 1. -/
theorem C4_point_modal_iterates_one_extra_order_witness :
    0 ≤ modalMaxEstimate Real.pi 1 ∧
    (pmOrders .auto ⟨Real.pi, Real.pi, Real.pi⟩ 1).1
      = (pmvOrders .auto ⟨Real.pi, Real.pi, Real.pi⟩ 1).1
          ++ [(modalMaxEstimate Real.pi 1).toNat] := by
  have hest : modalMaxEstimate Real.pi 1 = 1 := by
    unfold modalMaxEstimate
    rw [div_self Real.pi_ne_zero, one_mul]
    exact Int.ceil_one
  have h0 : 0 ≤ modalMaxEstimate Real.pi 1 := by rw [hest]; norm_num
  exact ⟨h0, (C4_point_modal_iterates_one_extra_order
    ⟨Real.pi, Real.pi, Real.pi⟩ 1 h0 h0 h0).1⟩

/-- C2 counterexample: plane_velocity is not invariant under normalizing
    the orientation: with omega 0, coincident source position and
    observation point, and n0 of (2, 0, 0), the x component is 2 over
    rho0 c, while for the unit-normalized direction it is 1 over rho0 c. -/
theorem C2_plane_velocity_not_normalized_cex :
    plane_velocity 0 ⟨0, 0, 0⟩ ⟨2, 0, 0⟩ ⟨0, 0, 0⟩ (some 343) someDefs
      ≠ plane_velocity 0 ⟨0, 0, 0⟩ (normalize_vector ⟨2, 0, 0⟩) ⟨0, 0, 0⟩
          (some 343) someDefs := by
  have hn : normalize_vector ⟨2, 0, 0⟩ = ⟨1, 0, 0⟩ := by
    rw [normalize_vector, norm3_two_x]
    norm_num
  intro h
  rw [hn] at h
  have hx := congrArg XyzC.x h
  simp only [plane_velocity, Option.getD_some, plane_zero_freq, someDefs] at hx
  norm_num at hx

/-- C2 amended: plane_velocity multiplies the pressure over rho0 c per
    axis by the orientation components exactly as passed, not by the
    unit-normalized direction; consequently it is positively homogeneous
    of degree one in n0 (scaling n0 by t scales the velocity by t)
    rather than invariant under normalization, and the claimed equality
    holds only for orientations already of unit length. -/
theorem C2_plane_velocity_raw_orientation (omega : ℝ) (x0 n0 pt : Vec3)
    (c : Option ℝ) (d : Defs) :
    (∀ t : ℝ, 0 < t →
      plane_velocity omega x0 (Vec3.smul t n0) pt c d
        = XyzC.smul t (plane_velocity omega x0 n0 pt c d))
    ∧ plane_velocity omega x0 n0 pt c d
        = ⟨plane omega x0 n0 pt (some (c.getD d.c)) d
              / ((d.rho0 : ℂ) * ((c.getD d.c : ℝ) : ℂ)) * (n0.x : ℂ),
           plane omega x0 n0 pt (some (c.getD d.c)) d
              / ((d.rho0 : ℂ) * ((c.getD d.c : ℝ) : ℂ)) * (n0.y : ℂ),
           plane omega x0 n0 pt (some (c.getD d.c)) d
              / ((d.rho0 : ℂ) * ((c.getD d.c : ℝ) : ℂ)) * (n0.z : ℂ)⟩ := by
  constructor
  · intro t ht
    unfold plane_velocity
    simp only [plane_smul t ht]
    simp only [Vec3.smul, XyzC.smul, XyzC.mk.injEq]
    push_cast
    refine ⟨?_, ?_, ?_⟩ <;> ring
  · rfl

/-- C2 witness: doubling the orientation (1, 0, 0) doubles the velocity. -/
theorem C2_plane_velocity_raw_orientation_witness :
    (0 : ℝ) < 2 ∧
    plane_velocity 1 ⟨0, 0, 0⟩ (Vec3.smul 2 ⟨1, 0, 0⟩) ⟨1, 2, 3⟩ none someDefs
      = XyzC.smul 2 (plane_velocity 1 ⟨0, 0, 0⟩ ⟨1, 0, 0⟩ ⟨1, 2, 3⟩ none someDefs) :=
  ⟨by norm_num, (C2_plane_velocity_raw_orientation 1 ⟨0, 0, 0⟩ ⟨1, 0, 0⟩
    ⟨1, 2, 3⟩ none someDefs).1 2 (by norm_num)⟩

/-- C3 counterexample: at omega 0 the wavenumber is 0 and the divisor
    j rho0 c k r of the momentum factor inside point_velocity is exactly
    zero even at a grid point away from the source: the evaluation of
    point_velocity at omega 0 does divide by zero. -/
theorem C3_point_velocity_divides_by_zero_cex :
    norm3 (Vec3.sub ⟨1, 0, 0⟩ ⟨0, 0, 0⟩) ≠ 0 ∧
    pointVelocityFactorDenom someDefs 343 (wavenumber 0 (some 343) someDefs)
      (norm3 (Vec3.sub ⟨1, 0, 0⟩ ⟨0, 0, 0⟩)) = 0 := by
  constructor
  · rw [sub_unit_x, norm3_unit_x]
    norm_num
  · simp [pointVelocityFactorDenom, wavenumber]

/-- C3 amended: the pressure evaluator point completes at omega 0 with no
    division by k, returning 1 over 4 pi r at every grid point away from
    the source; but not every function avoids dividing by k:
    point_velocity divides by j rho0 c k r, and at omega 0 that divisor
    is exactly zero. -/
theorem C3_omega_zero_paths (x0 : Vec3) (n0 : Option Vec3) (pt : Vec3)
    (c : Option ℝ) (d : Defs) (h : norm3 (Vec3.sub pt x0) ≠ 0) :
    point 0 x0 n0 pt c d
        = 1 / (4 * (Real.pi : ℂ) * ((norm3 (Vec3.sub pt x0) : ℝ) : ℂ))
    ∧ pointVelocityFactorDenom d (c.getD d.c) (wavenumber 0 c d)
        (norm3 (Vec3.sub pt x0)) = 0 := by
  constructor
  · unfold point wavenumber
    simp [div_div]
    ring
  · simp [pointVelocityFactorDenom, wavenumber]

/-- C3 witness: the amended statement at the origin source and the grid
    point (1, 0, 0). -/
theorem C3_omega_zero_paths_witness :
    norm3 (Vec3.sub ⟨1, 0, 0⟩ ⟨0, 0, 0⟩) ≠ 0 ∧
    point 0 ⟨0, 0, 0⟩ none ⟨1, 0, 0⟩ none someDefs
      = 1 / (4 * (Real.pi : ℂ)
          * ((norm3 (Vec3.sub ⟨1, 0, 0⟩ ⟨0, 0, 0⟩) : ℝ) : ℂ)) := by
  have h : norm3 (Vec3.sub (⟨1, 0, 0⟩ : Vec3) ⟨0, 0, 0⟩) ≠ 0 := by
    rw [sub_unit_x, norm3_unit_x]
    norm_num
  exact ⟨h, (C3_omega_zero_paths ⟨0, 0, 0⟩ none ⟨1, 0, 0⟩ none someDefs h).1⟩

/-- C6: with max order 0 the room-geometry collaborator yields only the
    direct source with all six per-wall reflection orders zero, so with
    unit reflection coefficients, supplied or defaulted,
    point_image_sources returns exactly the free-field point pressure. -/
theorem C6_image_sources_order_zero_is_point
    (imgs : Vec3 → Vec3 → ℕ → List (Vec3 × (Fin 6 → ℕ)))
    (omega : ℝ) (x0 : Vec3) (n0 : Option Vec3) (pt L : Vec3)
    (coeffs : Option (Fin 6 → ℝ)) (c : Option ℝ) (d : Defs)
    (himgs : imgs x0 L 0 = [(x0, fun _ => 0)])
    (hcoeffs : coeffs = none ∨ coeffs = some fun _ => 1) :
    point_image_sources imgs omega x0 n0 pt L 0 coeffs c d
      = point omega x0 n0 pt c d := by
  rcases hcoeffs with hc | hc <;> subst hc <;>
    simp [point_image_sources, himgs]

/-- C6 witness: a concrete collaborator satisfying the max-order-0
    contract, with the coefficients omitted. -/
theorem C6_image_sources_order_zero_is_point_witness :
    (fun (p : Vec3) (_ : Vec3) (_ : ℕ) => [(p, fun _ : Fin 6 => (0 : ℕ))])
        ⟨0, 0, 0⟩ ⟨1, 1, 1⟩ 0 = [(⟨0, 0, 0⟩, fun _ => 0)] ∧
    point_image_sources
        (fun p _ _ => [(p, fun _ => 0)]) 1 ⟨0, 0, 0⟩ none ⟨1, 1, 1⟩ ⟨2, 2, 2⟩
        0 none none someDefs
      = point 1 ⟨0, 0, 0⟩ none ⟨1, 1, 1⟩ none someDefs :=
  ⟨rfl, C6_image_sources_order_zero_is_point _ 1 ⟨0, 0, 0⟩ none ⟨1, 1, 1⟩
    ⟨2, 2, 2⟩ none none someDefs rfl (Or.inl rfl)⟩

/-- C7: the point-source pressure is 1 over 4 pi times exp(-j k r) over
    r with r the distance to the source and k the wavenumber omega over
    c; in the concrete scenario omega of 2 pi 500, c of 343 and source
    at (1.5, 1, 0), the value at the grid point (2.5, 1, 0), one meter
    away, equals 1 over 4 pi times exp(-j k times 1) over 1. -/
theorem C7_point_pressure_formula :
    (∀ (omega : ℝ) (x0 : Vec3) (n0 : Option Vec3) (pt : Vec3)
        (c : Option ℝ) (d : Defs), 0 < norm3 (Vec3.sub pt x0) →
      point omega x0 n0 pt c d
        = 1 / (4 * (Real.pi : ℂ))
            * Complex.exp (-Complex.I * ((wavenumber omega c d : ℝ) : ℂ)
                * ((norm3 (Vec3.sub pt x0) : ℝ) : ℂ))
            / ((norm3 (Vec3.sub pt x0) : ℝ) : ℂ))
    ∧ ∀ d : Defs,
        point (2 * Real.pi * 500) ⟨1.5, 1, 0⟩ none ⟨2.5, 1, 0⟩ (some 343) d
          = 1 / (4 * (Real.pi : ℂ))
              * Complex.exp (-Complex.I * ((2 * Real.pi * 500 / 343 : ℝ) : ℂ) * 1)
              / 1 := by
  constructor
  · intro omega x0 n0 pt c d _h
    rfl
  · intro d
    have h2 : norm3 (Vec3.sub ⟨2.5, 1, 0⟩ ⟨1.5, 1, 0⟩) = 1 := by
      rw [sub_c7_points, norm3_unit_x]
    have h3 : wavenumber (2 * Real.pi * 500) (some 343) d
        = 2 * Real.pi * 500 / 343 := rfl
    simp only [point]
    rw [h2, h3, Complex.ofReal_one]

/-- C7 witness: the formula instantiated at the concrete scenario of the
    claim, where the distance is 1. -/
theorem C7_point_pressure_formula_witness :
    0 < norm3 (Vec3.sub ⟨2.5, 1, 0⟩ ⟨1.5, 1, 0⟩) ∧
    point (2 * Real.pi * 500) ⟨1.5, 1, 0⟩ none ⟨2.5, 1, 0⟩ (some 343) someDefs
      = 1 / (4 * (Real.pi : ℂ))
          * Complex.exp (-Complex.I
              * ((wavenumber (2 * Real.pi * 500) (some 343) someDefs : ℝ) : ℂ)
              * ((norm3 (Vec3.sub ⟨2.5, 1, 0⟩ ⟨1.5, 1, 0⟩) : ℝ) : ℂ))
          / ((norm3 (Vec3.sub ⟨2.5, 1, 0⟩ ⟨1.5, 1, 0⟩) : ℝ) : ℂ) := by
  have h : 0 < norm3 (Vec3.sub (⟨2.5, 1, 0⟩ : Vec3) ⟨1.5, 1, 0⟩) := by
    rw [sub_c7_points, norm3_unit_x]
    norm_num
  exact ⟨h, C7_point_pressure_formula.1 (2 * Real.pi * 500) ⟨1.5, 1, 0⟩ none
    ⟨2.5, 1, 0⟩ (some 343) someDefs h⟩

end
